import Mathlib

/-
  Verification of the zippy playback stream engine.

  Shallow embedding of src/stream.go (eager and lazy streams), the
  tokenizer (tokenizer.next / tokenizeCmd) and the bubbletea controller
  (model.Update, model.wordInterval, model.adjustWPM from src/main.go).

  Machine integers (Go int) are modelled as Int; byte sources are lists
  of runes paired with an optional I/O error delivered at end of data;
  tea.Cmd values produced by the stream are modelled by Option SCmd
  (none is Go nil) and controller-level commands by Option MCmd.
  A Go panic is modelled by Option at the controller step (none).
-/

namespace Zippy

/-- I/O errors are abstracted as strings (Go error values compared by identity). -/
abbrev Err := String

/-- Whitespace test on a rune.  The Go source calls unicode.IsSpace; the model
covers the ASCII whitespace runes, which is what the streams are exercised on. -/
def isSpace (c : Char) : Bool :=
  c = ' ' || c = '\t' || c = '\n' || c = '\r'

/-- A byte source (io.ReadCloser): the runes it will deliver, then either EOF
(readErr = none) or a read error (readErr = some e), repeated on every
subsequent read, as bufio.Reader does. -/
structure Reader where
  chars : List Char
  readErr : Option Err
deriving DecidableEq, Repr

/-- Tokenizer state (type tokenizer in the source): remaining input of its
bufio.Reader, the pending strings.Builder buffer, and the done flag. -/
structure Tokenizer where
  input : List Char
  readErr : Option Err
  buf : String
  done : Bool
deriving DecidableEq, Repr

/-- newTokenizer wraps a reader with an empty buffer. -/
def newTokenizer (r : Reader) : Tokenizer :=
  { input := r.chars, readErr := r.readErr, buf := "", done := false }

/-- tokenMsg: the fetch result record (word, done, err). -/
structure TokenMsg where
  word : String
  done : Bool
  err : Option Err
deriving DecidableEq, Repr

/-- The read loop of tokenizer.next: consume runes until a token boundary,
end of input, or a read error.  Returns the tokenMsg produced by
tokenizeCmd together with the updated tokenizer state. -/
def tokLoop (readErr : Option Err) : List Char → String → TokenMsg × Tokenizer
  | [], buf =>
      match readErr with
      | some e => (⟨"", true, some e⟩, ⟨[], readErr, buf, false⟩)
      | none =>
          if buf ≠ "" then (⟨buf, true, none⟩, ⟨[], readErr, "", true⟩)
          else (⟨"", true, none⟩, ⟨[], readErr, buf, true⟩)
  | c :: rest, buf =>
      if isSpace c then
        (if buf ≠ "" then (⟨buf, false, none⟩, ⟨rest, readErr, "", false⟩)
         else tokLoop readErr rest buf)
      else tokLoop readErr rest (buf.push c)

/-- tokenizer.next followed by tokenizeCmd packaging: one fetch step. -/
def tokNext (t : Tokenizer) : TokenMsg × Tokenizer :=
  if t.done then (⟨"", true, none⟩, t)
  else tokLoop t.readErr t.input t.buf

/-- Lazy stream state (type lazyStream in the source).  inputOpen models
inputCloser being non-nil. -/
structure LazyStream where
  tokenizer : Option Tokenizer
  inputOpen : Bool
  filePath : String
  done : Bool
  err : Option Err
  waitingToken : Bool
  hasCurrent : Bool
  currentWord : String
  idx : Int
  total : Int
  supportsRestart : Bool
deriving DecidableEq, Repr

/-- newLazyStream: fresh lazy stream over a reader. -/
def newLazyStream (r : Reader) (filePath : String) : LazyStream :=
  { tokenizer := some (newTokenizer r), inputOpen := true, filePath := filePath
    done := false, err := none, waitingToken := false, hasCurrent := false
    currentWord := "", idx := -1, total := 0
    supportsRestart := filePath != "" }


/-- A stream-level command: the only one the streams emit is a token fetch
(tokenizeCmd); Option SCmd stands for the returned tea.Cmd, none = nil. -/
inductive SCmd
  | fetch
deriving DecidableEq, Repr

/-- lazyStream.requestToken: issue a fetch unless one is in flight or there
is no tokenizer. -/
def requestToken (s : LazyStream) : LazyStream × Option SCmd :=
  if s.waitingToken || s.tokenizer.isNone then (s, none)
  else ({ s with waitingToken := true }, some SCmd.fetch)

/-- lazyStream.Init. -/
def lazyInit (s : LazyStream) : LazyStream × Option SCmd :=
  if s.tokenizer.isNone then (s, none)
  else requestToken s

/-- lazyStream.closeInput: closes and clears the input closer (the state
effect is that inputCloser becomes nil). -/
def closeInput (s : LazyStream) : LazyStream :=
  { s with inputOpen := false }

/-- The tea.Msg values the program routes to Handle/Update: the fetch result,
the key presses recognised by model.Update, window resize, and the timer
tick.  keyOther stands for any other key. -/
inductive Msg
  | token (tm : TokenMsg)
  | keyQuit | keySpace | keySpeedUp | keySpeedDown
  | keyRight | keyLeft | keyRestart | keyOther
  | resize (w h : Int)
  | tick
deriving DecidableEq, Repr

/-- lazyStream.Handle. -/
def lazyHandle (s : LazyStream) (msg : Msg) : LazyStream × Option SCmd :=
  match msg with
  | .token tm =>
      let s1 := { s with waitingToken := false }
      match tm.err with
      | some e => (closeInput { s1 with err := some e, done := true }, none)
      | none =>
          if tm.word = "" ∧ tm.done = true then
            (closeInput { s1 with done := true, total := s1.idx + 1 }, none)
          else
            let s2 := if tm.word ≠ "" then
                { s1 with idx := s1.idx + 1, hasCurrent := true
                          currentWord := tm.word }
              else s1
            if tm.done = true then
              (closeInput { s2 with done := true, total := s2.idx + 1 }, none)
            else (s2, none)
  | _ => (s, none)

/-- lazyStream.Current. -/
def lazyCurrent (s : LazyStream) : String × Bool :=
  if s.hasCurrent then (s.currentWord, true) else ("", false)

/-- lazyStream.Next. -/
def lazyNext (s : LazyStream) : LazyStream × Option SCmd :=
  if s.done then (s, none)
  else requestToken s

/-- lazyStream.Prev panics; the panic is modelled as none. -/
def lazyPrev (_ : LazyStream) : Option LazyStream := none

/-- lazyStream.resetState. -/
def resetState (s : LazyStream) : LazyStream :=
  closeInput { s with done := false, err := none, waitingToken := false
                      hasCurrent := false, currentWord := "", idx := -1
                      total := 0 }

/-- The ambient inputs openInput consults: what os.Open yields for each
path, the outcome of os.Stdin.Stat() (an error, or else whether stdin is a
character device, i.e. an interactive terminal), and the bytes readable
from stdin. -/
structure World where
  fileSys : String → Except Err Reader
  stdinStatErr : Option Err
  stdinIsTerminal : Bool
  stdinReader : Reader

/-- openInput: with a path, open that file; otherwise stat stdin and hand
it back as the source unless stat fails or stdin is an interactive
terminal, which is treated as no input provided. -/
def openInput (w : World) (filePath : String) : Except Err Reader :=
  if filePath ≠ "" then
    w.fileSys filePath
  else
    match w.stdinStatErr with
    | some e => .error e
    | none =>
        if w.stdinIsTerminal then .error "no input provided"
        else .ok w.stdinReader

/-- The shape in which the stream layer consumes the opener:
lazyStream.Restart calls openInput with its stored file path, so the
stream and controller functions are parametrised by a path-to-source
function; the program instantiates it with openInput applied to the
ambient world. -/
abbrev OpenInput := String → Except Err Reader

/-- lazyStream.Restart. -/
def lazyRestart (fs : OpenInput) (s : LazyStream) : LazyStream × Option SCmd :=
  if s.supportsRestart = false then (s, none)
  else
    let s1 := resetState s
    match fs s1.filePath with
    | .error e => ({ s1 with err := some e, done := true }, none)
    | .ok r =>
        requestToken { s1 with inputOpen := true
                               tokenizer := some (newTokenizer r) }

/-- lazyStream.SupportsSeek. -/
def lazySupportsSeek (_ : LazyStream) : Bool := false

/-- lazyStream.SupportsRestart. -/
def lazySupportsRestart (s : LazyStream) : Bool := s.supportsRestart

/-- lazyStream.CanAdvance. -/
def lazyCanAdvance (s : LazyStream) : Bool := !s.done

/-- lazyStream.Err. -/
def lazyErr (s : LazyStream) : Option Err := s.err

/-- lazyStream.Pos. -/
def lazyPos (s : LazyStream) : Int :=
  if s.hasCurrent then s.idx else -1

/-- lazyStream.Total. -/
def lazyTotal (s : LazyStream) : Bool × Int :=
  if s.done then (true, s.total) else (false, 0)

/-- Resolving the outstanding fetch: the tokenizeCmd closure runs
tokenizer.next on the stream's tokenizer (a shared pointer in Go, so the
tokenizer state advances) and the resulting tokenMsg is handed to Handle.
The tokenizer-absent branch is unreachable while a fetch is outstanding,
since requestToken only fires with a tokenizer present. -/
def resolveFetch (s : LazyStream) : LazyStream × Option SCmd :=
  match s.tokenizer with
  | none => lazyHandle s (.token ⟨"", true, none⟩)
  | some tk =>
      let r := tokNext tk
      lazyHandle { s with tokenizer := some r.2 } (.token r.1)

/-- Eager stream state (type eagerStream in the source). -/
structure EagerStream where
  words : List String
  idx : Int
  supportsRestart : Bool
deriving DecidableEq, Repr

/-- newEagerStream (idx is the zero value 0). -/
def newEagerStream (words : List String) (supportsRestart : Bool) : EagerStream :=
  { words := words, idx := 0, supportsRestart := supportsRestart }

/-- eagerStream.Current. -/
def eagerCurrent (s : EagerStream) : String × Bool :=
  if s.words.length = 0 ∨ s.idx < 0 ∨ (s.words.length : Int) ≤ s.idx then
    ("", false)
  else (s.words.getD s.idx.toNat "", true)

/-- eagerStream.Next (always returns a nil command). -/
def eagerNext (s : EagerStream) : EagerStream :=
  if s.idx < (s.words.length : Int) - 1 then { s with idx := s.idx + 1 } else s

/-- eagerStream.Prev. -/
def eagerPrev (s : EagerStream) : EagerStream :=
  if 0 < s.idx then { s with idx := s.idx - 1 } else s

/-- eagerStream.Restart (always returns a nil command). -/
def eagerRestart (s : EagerStream) : EagerStream :=
  if s.supportsRestart then { s with idx := 0 } else s

/-- eagerStream.SupportsSeek. -/
def eagerSupportsSeek (_ : EagerStream) : Bool := true

/-- eagerStream.SupportsRestart. -/
def eagerSupportsRestart (s : EagerStream) : Bool := s.supportsRestart

/-- eagerStream.CanAdvance. -/
def eagerCanAdvance (s : EagerStream) : Bool :=
  decide (0 < s.words.length ∧ s.idx < (s.words.length : Int) - 1)

/-- eagerStream.Err. -/
def eagerErr (_ : EagerStream) : Option Err := none

/-- eagerStream.Pos. -/
def eagerPos (s : EagerStream) : Int :=
  if s.words.length = 0 then -1 else s.idx

/-- eagerStream.Total. -/
def eagerTotal (s : EagerStream) : Bool × Int :=
  (true, (s.words.length : Int))

/-- eagerStream.Handle: ignores the message, returns nil. -/
def eagerHandle (s : EagerStream) (_ : Msg) : EagerStream × Option SCmd :=
  (s, none)

/-- The stream interface value held by the model: one of the two concrete
stream shapes. -/
inductive StreamV
  | eager (s : EagerStream)
  | lazy (s : LazyStream)
deriving DecidableEq, Repr

/-- Dispatch of Next over the interface. -/
def svNext : StreamV → StreamV × Option SCmd
  | .eager s => (.eager (eagerNext s), none)
  | .lazy s => (.lazy (lazyNext s).1, (lazyNext s).2)

/-- Dispatch of Prev; the lazy panic propagates as none. -/
def svPrev : StreamV → Option StreamV
  | .eager s => some (.eager (eagerPrev s))
  | .lazy s => (lazyPrev s).map .lazy

/-- Dispatch of Restart. -/
def svRestart (fs : OpenInput) : StreamV → StreamV × Option SCmd
  | .eager s => (.eager (eagerRestart s), none)
  | .lazy s => (.lazy (lazyRestart fs s).1, (lazyRestart fs s).2)

/-- Dispatch of Handle. -/
def svHandle : StreamV → Msg → StreamV × Option SCmd
  | .eager s, msg => (.eager (eagerHandle s msg).1, (eagerHandle s msg).2)
  | .lazy s, msg => (.lazy (lazyHandle s msg).1, (lazyHandle s msg).2)

/-- Dispatch of Current. -/
def svCurrent : StreamV → String × Bool
  | .eager s => eagerCurrent s
  | .lazy s => lazyCurrent s

/-- Dispatch of SupportsSeek. -/
def svSupportsSeek : StreamV → Bool
  | .eager s => eagerSupportsSeek s
  | .lazy s => lazySupportsSeek s

/-- Dispatch of SupportsRestart. -/
def svSupportsRestart : StreamV → Bool
  | .eager s => eagerSupportsRestart s
  | .lazy s => lazySupportsRestart s

/-- Dispatch of CanAdvance. -/
def svCanAdvance : StreamV → Bool
  | .eager s => eagerCanAdvance s
  | .lazy s => lazyCanAdvance s

/-- Dispatch of Err. -/
def svErr : StreamV → Option Err
  | .eager s => eagerErr s
  | .lazy s => lazyErr s

/-- One second in nanoseconds (time.Second). -/
def secondNs : Nat := 1000000000

/-- One minute in nanoseconds (time.Minute). -/
def minuteNs : Nat := 60 * secondNs

/-- model.wordInterval, in nanoseconds.  Go computes
time.Minute / time.Duration(m.wpm) with int64 division; for the positive
divisor taken in that branch this is Nat division of the nanosecond counts. -/
def wordInterval (wpm : Int) : Nat :=
  if wpm ≤ 0 then secondNs
  else minuteNs / wpm.toNat

/-- model.adjustWPM: add the delta, then clamp below at 50 and above at 1200
in sequence. -/
def adjustWPM (wpm delta : Int) : Int :=
  let w1 := wpm + delta
  let w2 := if w1 < 50 then 50 else w1
  if 1200 < w2 then 1200 else w2

/-- The controller state (type model in the source).  The stream field is an
interface value, nil when absent. -/
structure Model where
  stream : Option StreamV
  running : Bool
  wpm : Int
  width : Int
  height : Int
deriving DecidableEq, Repr

/-- Controller-level commands returned by model.Update (beyond nil):
tea.Quit, a scheduled tick carrying its interval, or a token fetch. -/
inductive MCmd
  | quit
  | tick (ns : Nat)
  | fetch
deriving DecidableEq, Repr

/-- model.Update.  Returns none only if the Go code would panic (the
lazyStream.Prev branch); otherwise some (new model, returned command). -/
def update (fs : OpenInput) (m : Model) (msg : Msg) :
    Option (Model × Option MCmd) :=
  match msg with
  | .keyQuit => some (m, some MCmd.quit)
  | .keySpace =>
      let m1 := { m with running := !m.running }
      if m1.running then some (m1, some (MCmd.tick (wordInterval m1.wpm)))
      else some (m1, none)
  | .keySpeedUp =>
      let m1 := { m with wpm := adjustWPM m.wpm 25 }
      if m1.running then some (m1, some (MCmd.tick (wordInterval m1.wpm)))
      else some (m1, none)
  | .keySpeedDown =>
      let m1 := { m with wpm := adjustWPM m.wpm (-25) }
      if m1.running then some (m1, some (MCmd.tick (wordInterval m1.wpm)))
      else some (m1, none)
  | .keyRight =>
      match m.stream with
      | none => some (m, none)
      | some sv =>
          if svSupportsSeek sv = false then some (m, none)
          else some ({ m with stream := some (svNext sv).1 }, none)
  | .keyLeft =>
      match m.stream with
      | none => some (m, none)
      | some sv =>
          if svSupportsSeek sv = false then some (m, none)
          else
            match svPrev sv with
            | none => none
            | some sv2 => some ({ m with stream := some sv2 }, none)
  | .keyRestart =>
      match m.stream with
      | none => some (m, none)
      | some sv =>
          if svSupportsRestart sv = false then some (m, none)
          else
            let r := svRestart fs sv
            let m1 := { m with stream := some r.1 }
            match r.2 with
            | some SCmd.fetch => some (m1, some MCmd.fetch)
            | none =>
                if m1.running then
                  some (m1, some (MCmd.tick (wordInterval m1.wpm)))
                else some (m1, none)
  | .keyOther => some (m, none)
  | .resize w h => some ({ m with width := w, height := h }, none)
  | .tick =>
      if m.running = false then some (m, none)
      else
        match m.stream with
        | none => some ({ m with running := false }, none)
        | some sv =>
            if svCanAdvance sv = false then
              some ({ m with running := false }, none)
            else
              let r := svNext sv
              let m1 := { m with stream := some r.1 }
              match r.2 with
              | some SCmd.fetch => some (m1, some MCmd.fetch)
              | none => some (m1, some (MCmd.tick (wordInterval m1.wpm)))
  | .token tm =>
      match m.stream with
      | none => some (m, none)
      | some sv =>
          let r := svHandle sv (.token tm)
          let m1 := { m with stream := some r.1 }
          match r.2 with
          | some SCmd.fetch => some (m1, some MCmd.fetch)
          | none =>
              if m1.running then
                if (svCurrent r.1).2 then
                  some (m1, some (MCmd.tick (wordInterval m1.wpm)))
                else if svCanAdvance r.1 = false then
                  some ({ m1 with running := false }, none)
                else some (m1, none)
              else some (m1, none)

/-- Run model.Update over a list of incoming messages, collecting the
returned commands; none if any step panics. -/
def runUpdates (fs : OpenInput) (m : Model) :
    List Msg → Option (Model × List (Option MCmd))
  | [] => some (m, [])
  | msg :: rest =>
      match update fs m msg with
      | none => none
      | some (m2, c) =>
          match runUpdates fs m2 rest with
          | none => none
          | some (m3, cs) => some (m3, c :: cs)

/-- tokenize: split a text into maximal runs of non-whitespace runes
(the strings.Builder loop in the source). -/
def tokenize (text : String) : List String :=
  let r := text.toList.foldl
    (fun (acc : List String × String) c =>
      if isSpace c then
        (if acc.2 ≠ "" then (acc.1 ++ [acc.2], "") else acc)
      else (acc.1, acc.2.push c))
    ([], "")
  if r.2 ≠ "" then r.1 ++ [r.2] else r.1

/-- streamInitError. -/
structure StreamInitError where
  msg : String
  showUsage : Bool
deriving DecidableEq, Repr

/-- buildStream.  The results of the two input collaborators are passed in
explicitly: openRes is what openInput(filePath) returns (used in the lazy
branch) and readRes is what readInput(filePath) returns (used in the eager
branch). -/
def buildStream (lazyFlag : Bool) (openRes : Except Err Reader)
    (readRes : Except Err String) (filePath : String) :
    Except StreamInitError StreamV :=
  if lazyFlag then
    match openRes with
    | .error _ => .error ⟨"Provide input via -file or stdin.", true⟩
    | .ok r => .ok (.lazy (newLazyStream r filePath))
  else
    match readRes with
    | .error _ => .error ⟨"Provide input via -file or stdin.", true⟩
    | .ok text =>
        let words := tokenize text
        if words.length = 0 then .error ⟨"No words found in input.", false⟩
        else .ok (.eager (newEagerStream words (filePath != "")))

/-- Decidable success test for buildStream results. -/
def buildOk (r : Except StreamInitError StreamV) : Bool :=
  match r with
  | .ok _ => true
  | .error _ => false

/-- The operations the controller can invoke on an eager stream. -/
inductive EOp
  | advance
  | retreat
  | restart
deriving DecidableEq, Repr

/-- One eager stream operation. -/
def eStep (s : EagerStream) : EOp → EagerStream
  | .advance => eagerNext s
  | .retreat => eagerPrev s
  | .restart => eagerRestart s

/-- A sequence of eager stream operations. -/
def eApply (s : EagerStream) (ops : List EOp) : EagerStream :=
  ops.foldl eStep s

/-- The operations driving a lazy stream, as scheduled by the event loop:
an advance attempt (Next), the resolution of the oldest outstanding fetch,
or a restart. -/
inductive LOp
  | advance
  | resolve
  | restart
deriving DecidableEq, Repr

/-- One step of the lazy stream system: the state is the stream paired with
the number of issued-but-unresolved fetch requests.  resolve with no
outstanding request is a stutter (no message can arrive). -/
def lStep (fs : OpenInput) (st : LazyStream × Nat) : LOp → LazyStream × Nat
  | .advance =>
      let r := lazyNext st.1
      (r.1, st.2 + (if r.2.isSome then 1 else 0))
  | .resolve =>
      if st.2 = 0 then st
      else ((resolveFetch st.1).1, st.2 - 1)
  | .restart =>
      let r := lazyRestart fs st.1
      (r.1, st.2 + (if r.2.isSome then 1 else 0))

/-- A sequence of lazy stream system steps. -/
def lRun (fs : OpenInput) (st : LazyStream × Nat) (ops : List LOp) :
    LazyStream × Nat :=
  ops.foldl (lStep fs) st

/-- The state right after construction and Init of a lazy stream, paired
with the count of fetches Init issued. -/
def lStart (r : Reader) (filePath : String) : LazyStream × Nat :=
  let i := lazyInit (newLazyStream r filePath)
  (i.1, if i.2.isSome then 1 else 0)

/-- Words delivered by an eager stream over n advance steps: the current
word before each advance, in order. -/
def eagerDeliver (s : EagerStream) : Nat → List (String × Bool)
  | 0 => []
  | n + 1 => eagerCurrent s :: eagerDeliver (eagerNext s) n

/-- Words delivered by a lazy stream with a fetch outstanding, over n
fetch-resolve-then-advance rounds: resolve the fetch, read the current
word, ask for the next token, repeat. -/
def lazyDeliver (s : LazyStream) : Nat → List (String × Bool)
  | 0 => []
  | n + 1 =>
      let s1 := (resolveFetch s).1
      lazyCurrent s1 :: lazyDeliver (lazyNext s1).1 n

/-- Is a message a fetch result? -/
def isTokenMsg : Msg → Bool
  | .token _ => true
  | _ => false

/-- Decidable error-state test on the controller: the active stream is a
lazy stream whose error is set and which is marked done.  These two always
arrive together (the error arm of Handle sets both). -/
def errLazy (m : Model) : Bool :=
  match m.stream with
  | some (.lazy s) => s.err.isSome && s.done
  | _ => false

/-- The scenario source delivering the text "one two" then EOF. -/
def oneTwoReader : Reader := ⟨"one two".toList, none⟩

/-- Lazy stream over "one two" right after Init issued the first fetch. -/
def oneTwoS0 : LazyStream := (lazyInit (newLazyStream oneTwoReader "")).1

/-- ... after the first fetch resolved. -/
def oneTwoS1 : LazyStream := (resolveFetch oneTwoS0).1

/-- ... after Next issued the second fetch and it resolved. -/
def oneTwoS2 : LazyStream := (resolveFetch (lazyNext oneTwoS1).1).1

/-- A source that errors after zero tokens. -/
def errReader : Reader := ⟨[], some "read failure"⟩

/-- Lazy stream over errReader after Init and the resolution of the first
(failing) fetch. -/
def errAfterZero : LazyStream :=
  (resolveFetch (lazyInit (newLazyStream errReader "")).1).1

/-- A concrete opener: every path reopens the "one two" source. -/
def fsOneTwo : OpenInput := fun _ => .ok oneTwoReader

/-- A concrete world: every file holds the "one two" text and stdin is a
readable pipe carrying the same text. -/
def worldOneTwo : World :=
  { fileSys := fun _ => .ok oneTwoReader, stdinStatErr := none
    stdinIsTerminal := false, stdinReader := oneTwoReader }

/-- A lazy stream in the terminal error state, over a restartable file. -/
def errStream : LazyStream :=
  { newLazyStream oneTwoReader "f" with err := some "boom", done := true }

/-- A paused controller holding errStream. -/
def errModel : Model :=
  { stream := some (.lazy errStream), running := false, wpm := 500
    width := 80, height := 24 }

/- Helper lemmas about lazyStream.Handle. -/

theorem lazyHandle_cmd_eq_none (s : LazyStream) (msg : Msg) :
    (lazyHandle s msg).2 = none := by
  cases msg <;> simp only [lazyHandle]
  rename_i tm
  obtain ⟨w, d, e⟩ := tm
  cases e <;> simp only []
  split
  · rfl
  · split <;> rfl

theorem lazyHandle_waiting_false (s : LazyStream) (tm : TokenMsg) :
    (lazyHandle s (.token tm)).1.waitingToken = false := by
  obtain ⟨w, d, e⟩ := tm
  cases e <;> simp only [lazyHandle, closeInput]
  split
  · rfl
  · split <;> split <;> rfl

theorem lazyHandle_keeps_error (s : LazyStream) (tm : TokenMsg)
    (he : s.err.isSome = true) (hd : s.done = true) :
    (lazyHandle s (.token tm)).1.err.isSome = true ∧
      (lazyHandle s (.token tm)).1.done = true := by
  obtain ⟨w, d, e⟩ := tm
  cases e <;> simp only [lazyHandle, closeInput]
  · split
    · exact ⟨he, rfl⟩
    · split <;> split <;> simp_all
  · simp

theorem lazyHandle_keeps_tokenizer (s : LazyStream) (tm : TokenMsg) :
    (lazyHandle s (.token tm)).1.tokenizer = s.tokenizer := by
  obtain ⟨w, d, e⟩ := tm
  cases e <;> simp only [lazyHandle, closeInput]
  split
  · rfl
  · split <;> split <;> rfl

/-- C1: for a lazy stream, a fetch result with an empty token and the
exhaustion flag set leaves position, current word and has-current flag
untouched and sets the exhausted flag and the total; a fetch result with a
non-empty token advances the position by exactly one and replaces the
current word regardless of the exhaustion flag; and on the text "one two"
the first fetch yields current ("one", true) with canAdvance true, the
second yields ("two", true) with canAdvance false and total (true, 2). -/
theorem claim_C1 :
    (∀ (s : LazyStream) (tm : TokenMsg), tm.err = none → tm.word = "" →
      tm.done = true →
      (lazyHandle s (.token tm)).1.idx = s.idx ∧
      (lazyHandle s (.token tm)).1.currentWord = s.currentWord ∧
      (lazyHandle s (.token tm)).1.hasCurrent = s.hasCurrent ∧
      (lazyHandle s (.token tm)).1.done = true ∧
      (lazyHandle s (.token tm)).1.total = s.idx + 1) ∧
    (∀ (s : LazyStream) (tm : TokenMsg), tm.err = none → tm.word ≠ "" →
      (lazyHandle s (.token tm)).1.idx = s.idx + 1 ∧
      (lazyHandle s (.token tm)).1.currentWord = tm.word ∧
      (lazyHandle s (.token tm)).1.hasCurrent = true) ∧
    (lazyCurrent oneTwoS1 = ("one", true) ∧
     lazyCanAdvance oneTwoS1 = true ∧
     (lazyNext oneTwoS1).2 = some SCmd.fetch ∧
     lazyCurrent oneTwoS2 = ("two", true) ∧
     lazyCanAdvance oneTwoS2 = false ∧
     lazyTotal oneTwoS2 = (true, 2)) := by
  refine ⟨?_, ?_, ?_⟩
  · intro s tm he hw hd
    obtain ⟨w, d, e⟩ := tm
    simp_all only []
    simp [lazyHandle, closeInput]
  · intro s tm he hw
    obtain ⟨w, d, e⟩ := tm
    simp_all only []
    have hcond : ¬(w = "" ∧ d = true) := by
      intro hc
      exact hw hc.1
    simp only [lazyHandle, closeInput, hcond, if_false, if_neg hcond,
      if_pos hw]
    split <;> simp [hw]
  · exact ⟨rfl, rfl, rfl, rfl, rfl, rfl⟩

/-- Witness for C1 at concrete inputs: an exhaustion-only result on the
fresh "one two" stream keeps the total formula, and a token result carrying
the word hi installs hi as the current word. -/
theorem claim_C1_witness :
    (lazyHandle (newLazyStream oneTwoReader "") (.token ⟨"", true, none⟩)).1.total
      = (newLazyStream oneTwoReader "").idx + 1 ∧
    (lazyHandle (newLazyStream oneTwoReader "") (.token ⟨"hi", false, none⟩)).1.currentWord
      = "hi" :=
  ⟨(claim_C1.1 _ _ rfl rfl rfl).2.2.2.2,
   (claim_C1.2.1 _ ⟨"hi", false, none⟩ rfl (by decide)).2.1⟩

/- Helper: advance calls on a done lazy stream never change state nor issue
requests. -/
theorem lRun_advance_done (fs : OpenInput) (s : LazyStream) (p : Nat)
    (hd : s.done = true) :
    ∀ (ops : List LOp), (∀ op ∈ ops, op = LOp.advance) →
      lRun fs (s, p) ops = (s, p)
  | [], _ => rfl
  | op :: rest, hops => by
      have hop : op = LOp.advance := hops op (List.mem_cons_self op rest)
      subst hop
      have hstep : lStep fs (s, p) LOp.advance = (s, p) := by
        simp [lStep, lazyNext, hd]
      have : lRun fs (s, p) (LOp.advance :: rest) = lRun fs (s, p) rest := by
        simp [lRun, List.foldl_cons, hstep]
      rw [this]
      exact lRun_advance_done fs s p hd rest
        (fun op hop => hops op (List.mem_cons_of_mem _ hop))

/-- C3: an error fetch result is terminal for a lazy stream: it sets the
stream error, marks it done, closes the source and returns no command; a
done stream never issues another fetch on advance, over any sequence of
advance calls; and on a source that errors after zero tokens, error() is
set, current() is ("", false) and canAdvance() is false. -/
theorem claim_C3 :
    (∀ (s : LazyStream) (tm : TokenMsg) (e : Err), tm.err = some e →
      (lazyHandle s (.token tm)).1.err = some e ∧
      (lazyHandle s (.token tm)).1.done = true ∧
      (lazyHandle s (.token tm)).1.inputOpen = false ∧
      (lazyHandle s (.token tm)).2 = none) ∧
    (∀ (s : LazyStream), s.done = true → lazyNext s = (s, none)) ∧
    (∀ (fs : OpenInput) (s : LazyStream) (p : Nat) (ops : List LOp),
      s.done = true → (∀ op ∈ ops, op = LOp.advance) →
      lRun fs (s, p) ops = (s, p)) ∧
    (lazyErr errAfterZero = some "read failure" ∧
     lazyCurrent errAfterZero = ("", false) ∧
     lazyCanAdvance errAfterZero = false) := by
  refine ⟨?_, ?_, ?_, ⟨rfl, rfl, rfl⟩⟩
  · intro s tm e he
    obtain ⟨w, d, e2⟩ := tm
    simp_all only []
    simp [lazyHandle, closeInput]
  · intro s hd
    simp [lazyNext, hd]
  · intro fs s p ops hd hops
    exact lRun_advance_done fs s p hd ops hops

/-- Witness for C3 at concrete inputs: handling a failing fetch result on
the fresh "one two" stream sets the error and the done flag, and two
further advance attempts leave the done errAfterZero stream untouched
without issuing a request. -/
theorem claim_C3_witness :
    (lazyHandle (newLazyStream oneTwoReader "") (.token ⟨"", true, some "boom"⟩)).1.err
      = some "boom" ∧
    lRun fsOneTwo (errAfterZero, 0) [LOp.advance, LOp.advance]
      = (errAfterZero, 0) :=
  ⟨(claim_C3.1 _ ⟨"", true, some "boom"⟩ "boom" rfl).1,
   claim_C3.2.2.1 fsOneTwo errAfterZero 0 [LOp.advance, LOp.advance]
     (by decide) (by decide)⟩

/-- C10: lazy stream message handling is frame-exact: a non-token message
leaves the stream unchanged and returns no command; a token result with an
empty word, no exhaustion flag and no error only clears the in-flight flag
and issues nothing; and eager stream message handling never mutates state. -/
theorem claim_C10 :
    (∀ (s : LazyStream) (msg : Msg), isTokenMsg msg = false →
      lazyHandle s msg = (s, none)) ∧
    (∀ (s : LazyStream),
      lazyHandle s (.token ⟨"", false, none⟩) =
        ({ s with waitingToken := false }, none)) ∧
    (∀ (s : EagerStream) (msg : Msg), eagerHandle s msg = (s, none)) := by
  refine ⟨?_, ?_, fun s msg => rfl⟩
  · intro s msg hmsg
    cases msg <;> simp_all [isTokenMsg, lazyHandle]
  · intro s
    rfl

/-- Witness for C10 at concrete inputs: a tick message leaves the fresh
"one two" stream untouched. -/
theorem claim_C10_witness :
    lazyHandle (newLazyStream oneTwoReader "") Msg.tick =
      (newLazyStream oneTwoReader "", none) :=
  claim_C10.1 (newLazyStream oneTwoReader "") Msg.tick rfl

/- Helper: invariant of eager stream operations — the word list and the
restart capability are fixed, and the index stays within bounds. -/
theorem eApply_invariant (ws : List String) (hws : 1 ≤ ws.length) :
    ∀ (ops : List EOp) (s : EagerStream), s.words = ws → 0 ≤ s.idx →
      s.idx ≤ (ws.length : Int) - 1 →
      (eApply s ops).words = ws ∧
      (eApply s ops).supportsRestart = s.supportsRestart ∧
      0 ≤ (eApply s ops).idx ∧ (eApply s ops).idx ≤ (ws.length : Int) - 1
  | [], s, hw, h0, h1 => ⟨hw, rfl, h0, h1⟩
  | op :: rest, s, hw, h0, h1 => by
      have hstep : (eStep s op).words = ws ∧
          (eStep s op).supportsRestart = s.supportsRestart ∧
          0 ≤ (eStep s op).idx ∧ (eStep s op).idx ≤ (ws.length : Int) - 1 := by
        cases op <;>
          simp only [eStep, eagerNext, eagerPrev, eagerRestart] <;>
          split <;> simp_all <;> omega
      have hrec := eApply_invariant ws hws rest (eStep s op) hstep.1
        hstep.2.2.1 hstep.2.2.2
      exact ⟨hrec.1, hrec.2.1.trans hstep.2.1, hrec.2.2⟩

/- Helper: eApply preserves words and the restart flag with no index
assumptions. -/
theorem eApply_frame :
    ∀ (ops : List EOp) (s : EagerStream),
      (eApply s ops).words = s.words ∧
      (eApply s ops).supportsRestart = s.supportsRestart
  | [], _ => ⟨rfl, rfl⟩
  | op :: rest, s => by
      have hstep : (eStep s op).words = s.words ∧
          (eStep s op).supportsRestart = s.supportsRestart := by
        cases op <;>
          simp only [eStep, eagerNext, eagerPrev, eagerRestart] <;>
          split <;> simp_all
      have hrec := eApply_frame rest (eStep s op)
      exact ⟨hrec.1.trans hstep.1, hrec.2.trans hstep.2⟩

/-- C4: for an eager stream over N tokens with N at least 1, under any
sequence of advance, retreat and restart operations the index never leaves
the interval from 0 to N-1, the token list is fixed so total() always
reports (true, N), and the initial position is 0. -/
theorem claim_C4 (ws : List String) (b : Bool) (ops : List EOp)
    (hws : 1 ≤ ws.length) :
    0 ≤ (eApply (newEagerStream ws b) ops).idx ∧
    (eApply (newEagerStream ws b) ops).idx ≤ (ws.length : Int) - 1 ∧
    eagerTotal (eApply (newEagerStream ws b) ops) = (true, (ws.length : Int)) ∧
    eagerPos (newEagerStream ws b) = 0 := by
  have h := eApply_invariant ws hws ops (newEagerStream ws b) rfl le_rfl
    (by simp [newEagerStream]; omega)
  refine ⟨h.2.2.1, h.2.2.2, ?_, ?_⟩
  · simp [eagerTotal, h.1]
  · have hne : ws.length ≠ 0 := by omega
    simp [eagerPos, newEagerStream, hne]

/-- Witness for C4 at a concrete input: two tokens, one advance then one
retreat keeps the index in range and the total at 2. -/
theorem claim_C4_witness :
    0 ≤ (eApply (newEagerStream ["alpha", "beta"] true)
          [EOp.advance, EOp.retreat]).idx ∧
    (eApply (newEagerStream ["alpha", "beta"] true)
      [EOp.advance, EOp.retreat]).idx ≤ ((["alpha", "beta"] : List String).length : Int) - 1 ∧
    eagerTotal (eApply (newEagerStream ["alpha", "beta"] true)
      [EOp.advance, EOp.retreat]) = (true, ((["alpha", "beta"] : List String).length : Int)) ∧
    eagerPos (newEagerStream ["alpha", "beta"] true) = 0 :=
  claim_C4 ["alpha", "beta"] true [EOp.advance, EOp.retreat] (by decide)

/- Helper: a restartable eager stream returns to its construction state on
restart, whatever operations ran before. -/
theorem eagerRestart_reproduces (ws : List String) (ops : List EOp) :
    eagerRestart (eApply (newEagerStream ws true) ops) =
      newEagerStream ws true := by
  have hf := eApply_frame ops (newEagerStream ws true)
  generalize hgen : eApply (newEagerStream ws true) ops = s1 at hf
  obtain ⟨w0, i0, b0⟩ := s1
  obtain ⟨hw, hb⟩ := hf
  replace hw : w0 = ws := hw
  replace hb : b0 = true := hb
  subst hw hb
  simp [eagerRestart, newEagerStream]

/- Helper: a restartable lazy stream whose opener reopens its path as the
reader r is rebuilt by Restart into exactly the post-Init state of a fresh
stream over r. -/
theorem lazyRestart_reproduces (fs : OpenInput) (path : String) (r : Reader)
    (s : LazyStream) (hfs : fs path = .ok r) (hfp : s.filePath = path)
    (hsr : s.supportsRestart = true) (hpath : path ≠ "") :
    lazyRestart fs s = lazyInit (newLazyStream r path) := by
  subst hfp
  obtain ⟨tk, io, fp, dn, er, wt, hc, cw, ix, tt, sr⟩ := s
  replace hsr : sr = true := hsr
  subst hsr
  replace hfs : fs fp = Except.ok r := hfs
  replace hpath : fp ≠ "" := hpath
  simp [lazyRestart, resetState, closeInput, hfs, requestToken,
    lazyInit, newLazyStream, newTokenizer]
  simp [bne_iff_ne, hpath]

/-- C5: restart round-trip.  For a restartable eager stream, restart after
any operation sequence returns the stream to its initial state, so
replaying any number of advances delivers the identical word sequence; for
a lazy stream over a fixed reopenable file (openInput hands back the
reader the stream started from), restart rebuilds exactly the post-Init
initial state and issues the same first fetch, so replaying the same
fetch-and-advance rounds delivers the identical word sequence. -/
theorem claim_C5 :
    (∀ (ws : List String) (ops : List EOp) (n : Nat),
      eagerRestart (eApply (newEagerStream ws true) ops) =
        newEagerStream ws true ∧
      eagerDeliver (eagerRestart (eApply (newEagerStream ws true) ops)) n =
        eagerDeliver (newEagerStream ws true) n) ∧
    (∀ (w : World) (path : String) (r : Reader) (s : LazyStream) (n : Nat),
      openInput w path = .ok r → s.filePath = path →
      s.supportsRestart = true → path ≠ "" →
      lazyRestart (openInput w) s = lazyInit (newLazyStream r path) ∧
      lazyDeliver (lazyRestart (openInput w) s).1 n =
        lazyDeliver (lazyInit (newLazyStream r path)).1 n) := by
  constructor
  · intro ws ops n
    exact ⟨eagerRestart_reproduces ws ops, by rw [eagerRestart_reproduces]⟩
  · intro w path r s n hfs hfp hsr hpath
    have heq := lazyRestart_reproduces (openInput w) path r s hfs hfp
      hsr hpath
    exact ⟨heq, by rw [heq]⟩

/-- Witness for C5 at concrete inputs: in the world whose files hold
"one two", restarting the lazy stream over the path f after its first word
was consumed reproduces the post-Init state and the same two delivered
words; the eager part at ["alpha", "beta"]. -/
theorem claim_C5_witness :
    (eagerRestart (eApply (newEagerStream ["alpha", "beta"] true)
        [EOp.advance]) = newEagerStream ["alpha", "beta"] true) ∧
    lazyDeliver (lazyRestart (openInput worldOneTwo)
        { (lazyNext oneTwoS1).1 with filePath := "f", supportsRestart := true }).1 2 =
      lazyDeliver (lazyInit (newLazyStream oneTwoReader "f")).1 2 :=
  ⟨(claim_C5.1 ["alpha", "beta"] [EOp.advance] 0).1,
   (claim_C5.2 worldOneTwo "f" oneTwoReader
     { (lazyNext oneTwoS1).1 with filePath := "f", supportsRestart := true } 2
     rfl rfl rfl (by decide)).2⟩

/-- The in-flight bookkeeping invariant of the lazy stream system: the
number of outstanding fetches matches the waitingToken flag, and a set
flag implies a tokenizer is present. -/
def FlightInv (st : LazyStream × Nat) : Prop :=
  st.2 = (if st.1.waitingToken then 1 else 0) ∧
  (st.1.waitingToken = true → st.1.tokenizer.isSome = true)

theorem flightInv_advance (fs : OpenInput) (s : LazyStream) (p : Nat)
    (h : FlightInv (s, p)) : FlightInv (lStep fs (s, p) LOp.advance) := by
  obtain ⟨hp, htk⟩ := h
  cases hd : s.done <;> cases hw : s.waitingToken <;>
    cases hx : s.tokenizer <;>
    simp_all [FlightInv, lStep, lazyNext, requestToken]

theorem flightInv_resolve (fs : OpenInput) (s : LazyStream) (p : Nat)
    (h : FlightInv (s, p)) : FlightInv (lStep fs (s, p) LOp.resolve) := by
  obtain ⟨hp, htk⟩ := h
  simp only [FlightInv] at hp htk
  by_cases hz : p = 0
  · subst hz
    simpa [FlightInv, lStep] using ⟨hp, htk⟩
  · have hw : s.waitingToken = true := by
      cases hwx : s.waitingToken
      · rw [hwx] at hp
        simp at hp
        omega
      · rfl
    have hp1 : p = 1 := by
      rw [hw] at hp
      simpa using hp
    obtain ⟨tk, htkeq⟩ := Option.isSome_iff_exists.mp (htk hw)
    have hres : (resolveFetch s).1.waitingToken = false := by
      simp only [resolveFetch, htkeq]
      exact lazyHandle_waiting_false _ _
    constructor
    · simp [lStep, hz, hres, hp1]
    · simp [lStep, hz, hres]

/-- C2 (amended): for every lazy stream and every sequence of advance and
fetch-result operations — restart excluded — at most one fetch is in flight
at any time, and an advance attempted while a fetch is in flight returns no
request and changes nothing.  (Restart is excluded because a restart issued
while a fetch is outstanding resets the in-flight flag and issues a second
fetch; see the counterexample.) -/
theorem claim_C2_amended :
    (∀ (fs : OpenInput) (r : Reader) (path : String) (ops : List LOp),
      (∀ op ∈ ops, op ≠ LOp.restart) →
      (lRun fs (lStart r path) ops).2 ≤ 1) ∧
    (∀ (s : LazyStream), s.waitingToken = true → lazyNext s = (s, none)) := by
  constructor
  · intro fs r path ops hops
    have hstart : FlightInv (lStart r path) := by
      constructor <;> simp [lStart, lazyInit, newLazyStream, newTokenizer,
        requestToken]
    have hrun : ∀ (l : List LOp) (st : LazyStream × Nat),
        (∀ op ∈ l, op ≠ LOp.restart) → FlightInv st →
        FlightInv (lRun fs st l) := by
      intro l
      induction l with
      | nil => intro st _ h; exact h
      | cons op rest ih =>
          intro st hl h
          have hstep : FlightInv (lStep fs st op) := by
            obtain ⟨s, p⟩ := st
            cases op with
            | advance => exact flightInv_advance fs s p h
            | resolve => exact flightInv_resolve fs s p h
            | restart => exact absurd rfl (hl _ (List.mem_cons_self _ _))
          exact ih (lStep fs st op)
            (fun o ho => hl o (List.mem_cons_of_mem _ ho)) hstep
    have hinv := hrun ops (lStart r path) hops hstart
    rcases hinv with ⟨hp, -⟩
    rw [hp]
    split <;> omega
  · intro s hw
    simp [lazyNext, requestToken, hw]

/-- Witness for C2 at concrete inputs: over the "one two" source, resolving
the initial fetch and advancing twice keeps the outstanding count at most
one, and an advance on a stream with the in-flight flag set returns no
request. -/
theorem claim_C2_witness :
    (lRun fsOneTwo (lStart oneTwoReader "f")
      [LOp.resolve, LOp.advance, LOp.advance]).2 ≤ 1 ∧
    lazyNext oneTwoS0 = (oneTwoS0, none) :=
  ⟨claim_C2_amended.1 fsOneTwo oneTwoReader "f"
      [LOp.resolve, LOp.advance, LOp.advance] (by decide),
   claim_C2_amended.2 oneTwoS0 (by decide)⟩

/-- C2 counterexample: the claim with restart included is false.  From the
post-Init state of the "one two" stream (one fetch already in flight), a
restart issues a second fetch: two fetches are then outstanding at once. -/
theorem claim_C2_counterexample :
    (lStart oneTwoReader "f").2 = 1 ∧
    (lRun fsOneTwo (lStart oneTwoReader "f") [LOp.restart]).2 = 2 :=
  ⟨rfl, rfl⟩

/- Helper: on the clamped range, dividing the minute by the next larger
rate gives a strictly smaller interval, because the quotient (at least
50 million ns) still dominates the divisor (at most 1200). -/
theorem minuteNs_div_succ_lt (a : Nat) (h50 : 50 ≤ a) (h : a ≤ 1199) :
    minuteNs / (a + 1) < minuteNs / a := by
  have ha : 0 < a := by omega
  have ha1 : 0 < a + 1 := by omega
  have hq : 1200 ≤ minuteNs / (a + 1) := by
    rw [Nat.le_div_iff_mul_le ha1]
    have h1 : 1200 * (a + 1) ≤ 1200 * 1200 := by
      apply Nat.mul_le_mul_left
      omega
    have h2 : 1200 * 1200 ≤ minuteNs := by
      simp [minuteNs, secondNs]
    omega
  have hqa : minuteNs / (a + 1) * (a + 1) ≤ minuteNs :=
    Nat.div_mul_le_self minuteNs (a + 1)
  have hlt : (minuteNs / (a + 1) + 1) * a ≤ minuteNs := by
    have haq : a < minuteNs / (a + 1) := by omega
    calc (minuteNs / (a + 1) + 1) * a
        = minuteNs / (a + 1) * a + a := by ring
      _ ≤ minuteNs / (a + 1) * a + minuteNs / (a + 1) := by omega
      _ = minuteNs / (a + 1) * (a + 1) := by ring
      _ ≤ minuteNs := hqa
  have := (Nat.le_div_iff_mul_le ha).mpr hlt
  omega

theorem minuteNs_div_strict_anti (x y : Nat) (h50 : 50 ≤ x) (hxy : x < y)
    (h1200 : y ≤ 1200) : minuteNs / y < minuteNs / x := by
  have hle : minuteNs / y ≤ minuteNs / (x + 1) :=
    Nat.div_le_div_left (by omega) (by omega)
  have hlt : minuteNs / (x + 1) < minuteNs / x :=
    minuteNs_div_succ_lt x h50 (by omega)
  omega

/-- C6: the scheduled tick interval is the floor of one minute of
nanoseconds divided by the words-per-minute rate, with a floor of one
second when the rate is non-positive; on the clamped range a strictly
larger rate gives a strictly smaller interval; and every speed change
leaves the rate inside the interval from 50 to 1200. -/
theorem claim_C6 :
    (∀ (wpm : Int), wpm ≤ 0 → wordInterval wpm = secondNs) ∧
    (∀ (wpm : Int), 0 < wpm →
      wordInterval wpm * wpm.toNat ≤ minuteNs ∧
      minuteNs < (wordInterval wpm + 1) * wpm.toNat) ∧
    (∀ (a b : Int), 50 ≤ a → a < b → b ≤ 1200 →
      wordInterval b < wordInterval a) ∧
    (∀ (wpm delta : Int),
      50 ≤ adjustWPM wpm delta ∧ adjustWPM wpm delta ≤ 1200) := by
  refine ⟨?_, ?_, ?_, ?_⟩
  · intro wpm h
    simp [wordInterval, h]
  · intro wpm h
    have hnp : ¬wpm ≤ 0 := by omega
    have hpos : 0 < wpm.toNat := by omega
    constructor
    · simp only [wordInterval, hnp, if_false]
      exact Nat.div_mul_le_self minuteNs wpm.toNat
    · simp only [wordInterval, hnp, if_false]
      exact (Nat.div_lt_iff_lt_mul hpos).mp (Nat.lt_succ_self _)
  · intro a b ha hab hb
    have hnpa : ¬a ≤ 0 := by omega
    have hnpb : ¬b ≤ 0 := by omega
    simp only [wordInterval, hnpa, hnpb, if_false]
    apply minuteNs_div_strict_anti a.toNat b.toNat
    · omega
    · omega
    · omega
  · intro wpm delta
    unfold adjustWPM
    dsimp only
    split_ifs <;> constructor <;> omega

/-- Witness for C6 at concrete inputs: interval of a non-positive rate is
one second, floor bounds at 500 wpm, 120 wpm ticks faster than 100 wpm,
and a +25 speed change from 1200 stays clamped. -/
theorem claim_C6_witness :
    wordInterval 0 = secondNs ∧
    wordInterval 500 * (500 : Int).toNat ≤ minuteNs ∧
    wordInterval 120 < wordInterval 100 ∧
    50 ≤ adjustWPM 1200 25 ∧ adjustWPM 1200 25 ≤ 1200 :=
  ⟨claim_C6.1 0 (by decide),
   (claim_C6.2.1 500 (by decide)).1,
   claim_C6.2.2.1 100 120 (by decide) (by decide) (by decide),
   (claim_C6.2.2.2 1200 25).1,
   (claim_C6.2.2.2 1200 25).2⟩

/- Helper: every branch of model.Update produces a result; in particular
the seek-backward branch checks SupportsSeek before calling Prev, and the
only stream whose Prev would panic reports SupportsSeek false. -/
theorem update_isSome (fs : OpenInput) (m : Model) (msg : Msg) :
    (update fs m msg).isSome = true := by
  cases msg with
  | token tm =>
      cases hm : m.stream with
      | none => simp [update, hm]
      | some sv =>
          simp only [update, hm]
          repeat' split
          all_goals simp
  | keyQuit => simp [update]
  | keySpace => simp only [update]; split <;> simp
  | keySpeedUp => simp only [update]; split <;> simp
  | keySpeedDown => simp only [update]; split <;> simp
  | keyRight =>
      cases hm : m.stream with
      | none => simp [update, hm]
      | some sv => simp only [update, hm]; split <;> simp
  | keyLeft =>
      cases hm : m.stream with
      | none => simp [update, hm]
      | some sv =>
          cases sv with
          | eager s => simp [update, hm, svSupportsSeek, eagerSupportsSeek,
              svPrev]
          | lazy s => simp [update, hm, svSupportsSeek, lazySupportsSeek]
  | keyRestart =>
      cases hm : m.stream with
      | none => simp [update, hm]
      | some sv =>
          simp only [update, hm]
          repeat' split
          all_goals simp
  | keyOther => simp [update]
  | resize w h => simp [update]
  | tick =>
      cases hm : m.stream with
      | none => simp only [update, hm]; split <;> simp
      | some sv =>
          simp only [update, hm]
          repeat' split
          all_goals simp

/-- C8: the controller guards retreat behind SupportsSeek, so the lazy
stream's panicking Prev branch is unreachable: model.Update (modelled so
that the panic is the result none) returns a result on every model, every
message and every message sequence. -/
theorem claim_C8 :
    (∀ (fs : OpenInput) (m : Model) (msg : Msg),
      (update fs m msg).isSome = true) ∧
    (∀ (fs : OpenInput) (msgs : List Msg) (m : Model),
      (runUpdates fs m msgs).isSome = true) := by
  refine ⟨update_isSome, ?_⟩
  intro fs msgs
  induction msgs with
  | nil => intro m; simp [runUpdates]
  | cons msg rest ih =>
      intro m
      have h1 := update_isSome fs m msg
      obtain ⟨⟨m2, c⟩, hu⟩ := Option.isSome_iff_exists.mp h1
      have h2 := ih m2
      obtain ⟨⟨m3, cs⟩, hr⟩ := Option.isSome_iff_exists.mp h2
      simp [runUpdates, hu, hr]

/- Helper lemmas about the controller after a lazy stream error. -/

theorem svHandle_lazy_cmd (s : LazyStream) (msg : Msg) :
    (svHandle (.lazy s) msg).2 = none := by
  simp [svHandle, lazyHandle_cmd_eq_none]

theorem errLazy_token (m : Model) (s : LazyStream) (tm : TokenMsg)
    (hm : m.stream = some (.lazy s)) (he : errLazy m = true) :
    errLazy { m with stream := some (svHandle (.lazy s) (.token tm)).1 } = true := by
  simp only [errLazy, hm] at he
  have hkeep := lazyHandle_keeps_error s tm (by simp_all) (by simp_all)
  simp [errLazy, svHandle, hkeep.1, hkeep.2]

/- One post-error step: any message other than toggle-play and restart
keeps the error state, keeps the controller paused, and returns neither a
fetch nor a tick command. -/
theorem update_error_step (fs : OpenInput) (m : Model) (msg : Msg)
    (he : errLazy m = true) (hr : m.running = false)
    (h1 : msg ≠ Msg.keySpace) (h2 : msg ≠ Msg.keyRestart) :
    ∃ m2 c, update fs m msg = some (m2, c) ∧ errLazy m2 = true ∧
      m2.running = false ∧ c ≠ some MCmd.fetch ∧
      (∀ n, c ≠ some (MCmd.tick n)) := by
  obtain ⟨sv, hm⟩ : ∃ sv, m.stream = some (.lazy sv) := by
    cases hms : m.stream with
    | none => simp [errLazy, hms] at he
    | some sv =>
        cases sv with
        | eager s => simp [errLazy, hms] at he
        | lazy s => exact ⟨s, rfl⟩
  have hdone : sv.done = true := by
    simp only [errLazy, hm] at he
    simp_all
  cases msg with
  | token tm =>
      refine ⟨{ m with stream := some (svHandle (.lazy sv) (.token tm)).1 },
        none, ?_, errLazy_token m sv tm hm he, hr, by simp, by simp⟩
      simp [update, hm, svHandle, lazyHandle_cmd_eq_none, hr]
  | keyQuit =>
      exact ⟨m, some MCmd.quit, by simp [update], he, hr, by simp, by simp⟩
  | keySpace => exact absurd rfl h1
  | keySpeedUp =>
      refine ⟨{ m with wpm := adjustWPM m.wpm 25 }, none, ?_, ?_, hr,
        by simp, by simp⟩
      · simp [update, hr]
      · simpa [errLazy, hm] using he
  | keySpeedDown =>
      refine ⟨{ m with wpm := adjustWPM m.wpm (-25) }, none, ?_, ?_, hr,
        by simp, by simp⟩
      · simp [update, hr]
      · simpa [errLazy, hm] using he
  | keyRight =>
      exact ⟨m, none, by simp [update, hm, svSupportsSeek, lazySupportsSeek],
        he, hr, by simp, by simp⟩
  | keyLeft =>
      exact ⟨m, none, by simp [update, hm, svSupportsSeek, lazySupportsSeek],
        he, hr, by simp, by simp⟩
  | keyRestart => exact absurd rfl h2
  | keyOther =>
      exact ⟨m, none, by simp [update], he, hr, by simp, by simp⟩
  | resize w h =>
      refine ⟨{ m with width := w, height := h }, none, by simp [update],
        ?_, hr, by simp, by simp⟩
      simpa [errLazy, hm] using he
  | tick =>
      exact ⟨m, none, by simp [update, hr], he, hr, by simp, by simp⟩

theorem runUpdates_error (fs : OpenInput) :
    ∀ (msgs : List Msg) (m : Model), errLazy m = true → m.running = false →
      (∀ msg ∈ msgs, msg ≠ Msg.keySpace ∧ msg ≠ Msg.keyRestart) →
      ∃ m3 cs, runUpdates fs m msgs = some (m3, cs) ∧ errLazy m3 = true ∧
        m3.running = false ∧
        ∀ c ∈ cs, c ≠ some MCmd.fetch ∧ ∀ n, c ≠ some (MCmd.tick n)
  | [], m, he, hr, _ => ⟨m, [], rfl, he, hr, by simp⟩
  | msg :: rest, m, he, hr, hmsgs => by
      obtain ⟨m2, c, hu, he2, hr2, hcf, hct⟩ :=
        update_error_step fs m msg he hr (hmsgs msg (by simp)).1
          (hmsgs msg (by simp)).2
      obtain ⟨m3, cs, hrun, he3, hr3, hcs⟩ :=
        runUpdates_error fs rest m2 he2 hr2
          (fun mg hmg => hmsgs mg (List.mem_cons_of_mem _ hmg))
      refine ⟨m3, c :: cs, ?_, he3, hr3, ?_⟩
      · simp [runUpdates, hu, hrun]
      · intro c2 hc2
        rcases List.mem_cons.mp hc2 with hceq | hcmem
        · subst hceq
          exact ⟨hcf, hct⟩
        · exact hcs c2 hcmem

/-- C7 (amended): once a lazy stream error is set (error stored, stream
done), a tick while playing forces the paused state without advancing or
fetching, and every following message sequence that contains no toggle-play
and no restart event keeps the controller paused, keeps the error state,
and never produces a fetch or a tick command.  (Toggle-play flips running
back on until the next tick, and restart — when supported — clears the
error and issues a fresh fetch; see the counterexample.) -/
theorem claim_C7_amended :
    (∀ (fs : OpenInput) (m : Model), errLazy m = true → m.running = true →
      update fs m Msg.tick = some ({ m with running := false }, none)) ∧
    (∀ (fs : OpenInput) (msgs : List Msg) (m : Model), errLazy m = true →
      m.running = false →
      (∀ msg ∈ msgs, msg ≠ Msg.keySpace ∧ msg ≠ Msg.keyRestart) →
      ∃ m3 cs, runUpdates fs m msgs = some (m3, cs) ∧ errLazy m3 = true ∧
        m3.running = false ∧
        ∀ c ∈ cs, c ≠ some MCmd.fetch ∧ ∀ n, c ≠ some (MCmd.tick n)) := by
  refine ⟨?_, fun fs msgs m he hr hmsgs =>
    runUpdates_error fs msgs m he hr hmsgs⟩
  intro fs m he hr
  obtain ⟨sv, hm⟩ : ∃ sv, m.stream = some (.lazy sv) := by
    cases hms : m.stream with
    | none => simp [errLazy, hms] at he
    | some sv2 =>
        cases sv2 with
        | eager s => simp [errLazy, hms] at he
        | lazy s => exact ⟨s, rfl⟩
  have hdone : sv.done = true := by
    simp only [errLazy, hm] at he
    simp_all
  simp [update, hr, hm, svCanAdvance, lazyCanAdvance, hdone]

/-- Witness for C7 at concrete inputs: with the error stream installed and
playing, a tick pauses; and from the paused error state the sequence
quit-key then resize produces no fetch and no tick and stays paused. -/
theorem claim_C7_witness :
    update fsOneTwo { errModel with running := true } Msg.tick =
      some (errModel, none) ∧
    ∃ m3 cs, runUpdates fsOneTwo errModel [Msg.keyQuit, Msg.resize 10 10] =
      some (m3, cs) ∧ errLazy m3 = true ∧ m3.running = false ∧
      ∀ c ∈ cs, c ≠ some MCmd.fetch ∧ ∀ n, c ≠ some (MCmd.tick n) :=
  ⟨claim_C7_amended.1 fsOneTwo { errModel with running := true }
      (by decide) rfl,
   claim_C7_amended.2 fsOneTwo [Msg.keyQuit, Msg.resize 10 10] errModel
      (by decide) rfl (by decide)⟩

/-- C7 counterexample: the claim as stated is false.  From the paused error
state, pressing space flips running back to true (so the running flag does
not stay false), and pressing r on a restart-capable stream makes the
controller issue a fetch (so fetches do not stop forever). -/
theorem claim_C7_counterexample :
    errLazy errModel = true ∧
    (update fsOneTwo errModel Msg.keySpace).map (fun r => r.1.running) =
      some true ∧
    (update fsOneTwo errModel Msg.keyRestart).map (fun r => r.2) =
      some (some MCmd.fetch) :=
  ⟨rfl, rfl, rfl⟩

/-- C9 (amended): in the eager mode, a successfully read source that
tokenizes to zero words makes construction fail with the no-words-found
diagnostic; in the lazy mode, construction over a zero-token source
succeeds (no diagnostic is produced at construction time) and the
emptiness is only discovered when the first fetch resolves, leaving the
stream exhausted with no current word and total zero — not a crash. -/
theorem claim_C9_amended :
    (∀ (text filePath : String) (openRes : Except Err Reader),
      tokenize text = [] →
      buildStream false openRes (.ok text) filePath =
        .error ⟨"No words found in input.", false⟩) ∧
    (∀ (filePath : String) (readRes : Except Err String),
      buildStream true (.ok ⟨[], none⟩) readRes filePath =
        .ok (.lazy (newLazyStream ⟨[], none⟩ filePath)) ∧
      (resolveFetch (lazyInit (newLazyStream ⟨[], none⟩ filePath)).1).1.done
        = true ∧
      lazyCurrent
        (resolveFetch (lazyInit (newLazyStream ⟨[], none⟩ filePath)).1).1
        = ("", false) ∧
      lazyCanAdvance
        (resolveFetch (lazyInit (newLazyStream ⟨[], none⟩ filePath)).1).1
        = false ∧
      lazyTotal
        (resolveFetch (lazyInit (newLazyStream ⟨[], none⟩ filePath)).1).1
        = (true, 0)) := by
  constructor
  · intro text filePath openRes htok
    simp [buildStream, htok]
  · intro filePath readRes
    refine ⟨by simp [buildStream], rfl, rfl, rfl, rfl⟩

/-- Witness for C9 at concrete inputs: the empty text tokenizes to no
words and eager construction reports the diagnostic; lazy construction
over the empty source hands back a stream. -/
theorem claim_C9_witness :
    buildStream false (.ok ⟨[], none⟩) (.ok "") "" =
      .error ⟨"No words found in input.", false⟩ ∧
    buildStream true (.ok ⟨[], none⟩) (.ok "") "" =
      .ok (.lazy (newLazyStream ⟨[], none⟩ "")) :=
  ⟨claim_C9_amended.1 "" "" (.ok ⟨[], none⟩) (by decide),
   (claim_C9_amended.2 "" (.ok "")).1⟩

/-- C9 counterexample: the claim as stated is false for the lazy delivery
mode: over a successfully opened source producing zero tokens (the first
fetch immediately reports exhaustion with no word), buildStream in lazy
mode succeeds instead of reporting a no-input-found error. -/
theorem claim_C9_counterexample :
    buildOk (buildStream true (.ok ⟨[], none⟩) (.ok "") "") = true ∧
    tokNext (newTokenizer ⟨[], none⟩) =
      (⟨"", true, none⟩, ⟨[], none, "", true⟩) :=
  ⟨rfl, rfl⟩

end Zippy
